import Mathlib

/-!
Verification development for the `cargo-wcc` binary of the
`weighted-code-coverage` crate (`src/bin/cargo-wcc.rs`).

The binary is thin CLI glue: it parses threshold strings, clamps the
worker count, dispatches on mode and JSON format to one of four
metrics-engine entry points, and sequences the optional CSV/JSON/HTML
writers followed by the console summary.  The definitions below embed
that control flow shallowly: `f64` values are modelled as exact
rationals extended with `nan` and signed infinity, fallible calls return
`Except`, and a Rust panic is modelled as the `none` branch of an outer
`Option`.
-/

set_option autoImplicit false

namespace Wcc

/-- Model of an `f64` value as produced by Rust's `f64::from_str`:
either `nan`, a signed infinity, or an exact rational (decimal strings
are modelled exactly, ignoring binary rounding). -/
inductive F64 where
  | nan : F64
  | inf (neg : Bool) : F64
  | finite (val : ℚ) : F64
deriving DecidableEq

/-- ASCII whitespace recognised by `str::trim` (restricted to the ASCII
subset of Unicode `White_Space`). -/
def isWsChar (c : Char) : Bool :=
  c = ' ' || c = '\t' || c = '\n' || c = '\r' || c = '\x0b' || c = '\x0c'

/-- Model of `str::trim`: drop whitespace from both ends. -/
def trimWs (cs : List Char) : List Char :=
  ((cs.dropWhile isWsChar).reverse.dropWhile isWsChar).reverse

/-- Model of `str::split(',')`: the empty string yields one empty
segment, and every comma starts a new (possibly empty) segment. -/
def splitOnComma : List Char → List (List Char)
  | [] => [[]]
  | c :: rest =>
    match splitOnComma rest with
    | [] => [[]]
    | seg :: segs => if c = ',' then [] :: seg :: segs else (c :: seg) :: segs

/-- ASCII lowercasing used for the case-insensitive keywords of the
float grammar. -/
def toLowerAscii (c : Char) : Char :=
  if 'A' ≤ c && c ≤ 'Z' then Char.ofNat (c.toNat + 32) else c

/-- Numeric value of one ASCII digit. -/
def digitVal (c : Char) : Nat := c.toNat - '0'.toNat

/-- Numeric value of a digit run, most significant first. -/
def digitsVal (ds : List Char) : Nat :=
  ds.foldl (fun acc c => 10 * acc + digitVal c) 0

/-- Model of the decimal part of Rust's `f64::from_str` grammar:
`Digit+ | Digit+ . Digit* | . Digit+`, optionally followed by an
exponent `e|E [+|-] Digit+`; the whole input must be consumed. -/
def parseDecimal (cs : List Char) : Option ℚ :=
  let ip := cs.takeWhile Char.isDigit
  let r1 := cs.dropWhile Char.isDigit
  let fpr2 : Option (List Char) × List Char :=
    match r1 with
    | '.' :: rest => (some (rest.takeWhile Char.isDigit), rest.dropWhile Char.isDigit)
    | _ => (none, r1)
  let fp := fpr2.1
  let r2 := fpr2.2
  if ip.isEmpty && (fp.getD []).isEmpty then none
  else
    let mantissa : ℚ := (digitsVal ip : ℚ) +
      (match fp with
       | some f => (digitsVal f : ℚ) / (10 : ℚ) ^ f.length
       | none => 0)
    match r2 with
    | [] => some mantissa
    | e :: rest =>
      if e = 'e' || e = 'E' then
        let sr : Bool × List Char :=
          match rest with
          | '+' :: r => (false, r)
          | '-' :: r => (true, r)
          | r => (false, r)
        let ed := sr.2.takeWhile Char.isDigit
        let r3 := sr.2.dropWhile Char.isDigit
        if ed.isEmpty || !r3.isEmpty then none
        else some (mantissa * (10 : ℚ) ^ (if sr.1 then -(digitsVal ed : ℤ) else (digitsVal ed : ℤ)))
      else none

/-- Model of `f64::from_str` on a character list: an optional sign, then
either a case-insensitive `inf`, `infinity` or `nan` keyword or a
decimal number.  `none` means the parse fails. -/
def parseF64Chars (cs : List Char) : Option F64 :=
  let sr : Bool × List Char :=
    match cs with
    | '+' :: r => (false, r)
    | '-' :: r => (true, r)
    | r => (false, r)
  let low := sr.2.map toLowerAscii
  if low = "inf".data || low = "infinity".data then some (F64.inf sr.1)
  else if low = "nan".data then some F64.nan
  else
    match parseDecimal sr.2 with
    | some q => some (F64.finite (if sr.1 then -q else q))
    | none => none

/-- Embedding of `struct Thresholds(Vec<f64>)`. -/
structure Thresholds where
  vals : List F64
deriving DecidableEq

/-- Model of `iter.map(|x| x.trim().parse::<f64>().unwrap()).collect()`:
the first element whose parse fails panics, modelled by `none`. -/
def mapUnwrap {α β : Type} (f : α → Option β) : List α → Option (List β)
  | [] => some []
  | x :: xs =>
    match f x, mapUnwrap f xs with
    | some y, some ys => some (y :: ys)
    | _, _ => none

/-- Embedding of `impl FromStr for Thresholds`.  The outer `Option`
models the panic of the `unwrap` inside the map (`none` = the process
aborts); the inner `Except` is the declared `Result` type of
`from_str`, whose error branch the code never constructs. -/
def Thresholds.fromStr (s : String) : Option (Except String Thresholds) :=
  (mapUnwrap (fun x => parseF64Chars (trimWs x)) (splitOnComma s.data)).map
    (fun v => Except.ok ⟨v⟩)

theorem mapUnwrap_eq_none_of_mem {α β : Type} (f : α → Option β) {xs : List α} {x : α}
    (hx : x ∈ xs) (hf : f x = none) : mapUnwrap f xs = none := by
  induction xs with
  | nil => cases hx
  | cons a as ih =>
    rcases List.mem_cons.mp hx with h | h
    · subst h
      simp [mapUnwrap, hf]
    · have hrest := ih h
      cases hfa : f a <;> simp [mapUnwrap, hfa, hrest]

theorem mapUnwrap_total {α β : Type} (f : α → Option β) (xs : List α)
    (h : ∀ x ∈ xs, (f x).isSome) :
    ∃ ys, mapUnwrap f xs = some ys ∧ ys.length = xs.length ∧
      ∀ (i : Nat) (h1 : i < xs.length) (h2 : i < ys.length),
        f (xs.get ⟨i, h1⟩) = some (ys.get ⟨i, h2⟩) := by
  induction xs with
  | nil =>
    exact ⟨[], rfl, rfl, fun i h1 _ => absurd h1 (Nat.not_lt_zero i)⟩
  | cons a as ih =>
    have ha : (f a).isSome := h a (List.mem_cons_self a as)
    rcases Option.isSome_iff_exists.mp ha with ⟨y, hy⟩
    rcases ih (fun x hx => h x (List.mem_cons_of_mem a hx)) with ⟨ys, h1, h2, h3⟩
    refine ⟨y :: ys, ?_, ?_, ?_⟩
    · simp [mapUnwrap, hy, h1]
    · simp [h2]
    · intro i hi1 hi2
      cases i with
      | zero => simpa using hy
      | succ n => exact h3 n (by simpa using hi1) (by simpa using hi2)

theorem mapUnwrap_eq_some {α β : Type} (f : α → Option β) (xs : List α) (ys : List β)
    (h : mapUnwrap f xs = some ys) :
    ys.length = xs.length ∧
      ∀ (i : Nat) (h1 : i < xs.length) (h2 : i < ys.length),
        f (xs.get ⟨i, h1⟩) = some (ys.get ⟨i, h2⟩) := by
  induction xs generalizing ys with
  | nil =>
    simp [mapUnwrap] at h
    subst h
    exact ⟨rfl, fun i h1 _ => absurd h1 (Nat.not_lt_zero i)⟩
  | cons a as ih =>
    cases hfa : f a with
    | none => simp [mapUnwrap, hfa] at h
    | some y =>
      cases hrest : mapUnwrap f as with
      | none => simp [mapUnwrap, hfa, hrest] at h
      | some zs =>
        simp [mapUnwrap, hfa, hrest] at h
        subst h
        rcases ih zs hrest with ⟨hl, hp⟩
        refine ⟨by simp [hl], ?_⟩
        intro i hi1 hi2
        cases i with
        | zero => simpa using hfa
        | succ n => exact hp n (by simpa using hi1) (by simpa using hi2)

/-- Embedding of `enum JsonFormat` (only the two variants matched in
`cargo-wcc.rs` are relevant). -/
inductive JsonFormat where
  | Covdir
  | Coveralls
deriving DecidableEq

/-- Embedding of `enum Mode` (only the two variants matched in `main`
are relevant). -/
inductive Mode where
  | Files
  | Functions
deriving DecidableEq

/-- Modelled from the spec: the complexity-metric selector
(`ComplexityKind`, spec section 3).  Its concrete variants live in
`utility.rs`, which is not among the embedded sources; the binary only
carries the chosen value through to the engine, so it is an abstract
tag here. -/
structure Complexity where
  tag : Nat
deriving DecidableEq

/-- Modelled from the spec: the sort-key selector (spec section 6).
Its concrete variants live in `utility.rs`, outside the embedded
sources, and the binary only passes the value through; the Rust name
`Sort` is a reserved word in Lean, hence `SortKey`. -/
structure SortKey where
  tag : Nat
deriving DecidableEq

/-- Embedding of `struct Args` (the `clap` derive attributes configure
parsing only; the fields are what the run functions read). -/
structure Args where
  path_file : String
  path_json : String
  path_csv : Option String
  path_html : Option String
  json_output : Option String
  complexity : Complexity
  n_threads : Nat
  json_format : JsonFormat
  thresholds : Thresholds
  verbose : Bool
  mode : Mode
  sort : SortKey
deriving DecidableEq

/-- The four metrics-engine entry points the binary can invoke, named
after the library functions imported from `weighted_code_coverage`. -/
inductive EntryPoint where
  | get_functions_metrics_concurrent_covdir
  | get_functions_metrics_concurrent
  | get_metrics_concurrent_covdir
  | get_metrics_concurrent
deriving DecidableEq

/-- The argument tuple passed to every engine entry point. -/
structure EngineArgs where
  path_file : String
  path_json : String
  metric_to_use : Complexity
  n_threads : Nat
  thresholds : List F64
  sort_by : SortKey
deriving DecidableEq

/-- The 4-tuple returned by every engine entry point
`(metrics, files_ignored, complex_files, project_coverage)`; the
component types are owned by the library crate, so they are type
parameters. -/
structure Outcome (M I C P : Type) where
  metrics : M
  files_ignored : I
  complex_files : C
  project_coverage : P
deriving DecidableEq

/-- Observable events of one run: the engine invocation with its
arguments, and each writer invocation with the data handed to it.  The
`Mode` tag distinguishes the file-level writers
(`print_metrics_to_csv`, ...) from the function-level ones
(`print_metrics_to_csv_function`, ...). -/
inductive Ev (M I C P : Type) where
  | engine (ep : EntryPoint) (a : EngineArgs)
  | csv (m : Mode) (metrics : M) (files_ignored : I) (path : String)
      (coverage : P) (sort_by : SortKey)
  | json (m : Mode) (metrics : M) (files_ignored : I) (path : String)
      (path_file : String) (coverage : P) (sort_by : SortKey)
  | html (m : Mode) (metrics : M) (files_ignored : I) (path : String)
      (path_file : String) (coverage : P) (sort_by : SortKey)
  | console (m : Mode) (metrics : M) (files_ignored : I) (complex_files : C)
deriving DecidableEq

/-- One optional writer step: invoked exactly when the output path was
supplied, in which case its own result (success or error) is the step's
result and its invocation is appended to the trace. -/
def optWrite {M I C P E : Type} (path : Option String) (res : Except E Unit)
    (mk : String → Ev M I C P) (t : List (Ev M I C P)) :
    Except E Unit × List (Ev M I C P) :=
  match path with
  | none => (Except.ok (), t)
  | some p => (res, t ++ [mk p])

/-- The shared writer sequence of `run_functions` and `run_files`:
optional CSV write, optional JSON write, optional HTML write (each
propagating its error with `?`), then the unconditional console
summary.  The two run functions differ only in which writer and
console functions they call, passed here as the event builders. -/
def writersPhase {M I C P E : Type} (pc pj ph : Option String)
    (c j h : Except E Unit) (mkc mkj mkh : String → Ev M I C P)
    (con : Ev M I C P) (t0 : List (Ev M I C P)) :
    Except E Unit × List (Ev M I C P) :=
  match optWrite pc c mkc t0 with
  | (Except.error e, t1) => (Except.error e, t1)
  | (Except.ok _, t1) =>
    match optWrite pj j mkj t1 with
    | (Except.error e, t2) => (Except.error e, t2)
    | (Except.ok _, t2) =>
      match optWrite ph h mkh t2 with
      | (Except.error e, t3) => (Except.error e, t3)
      | (Except.ok _, t3) => (Except.ok (), t3 ++ [con])

/-- Embedding of `run_functions`.  The engine call and the writer calls
are external, so their results are parameters; the returned trace
records the calls actually made, in order. -/
def run_functions {M I C P E : Type} (args : Args)
    (engineResult : Except E (Outcome M I C P))
    (csvResult jsonResult htmlResult : Except E Unit) :
    Except E Unit × List (Ev M I C P) :=
  let ev0 : Ev M I C P :=
    match args.json_format with
    | JsonFormat.Covdir =>
        Ev.engine EntryPoint.get_functions_metrics_concurrent_covdir
          ⟨args.path_file, args.path_json, args.complexity, max args.n_threads 1,
            args.thresholds.vals, args.sort⟩
    | JsonFormat.Coveralls =>
        Ev.engine EntryPoint.get_functions_metrics_concurrent
          ⟨args.path_file, args.path_json, args.complexity, max args.n_threads 1,
            args.thresholds.vals, args.sort⟩
  match engineResult with
  | Except.error e => (Except.error e, [ev0])
  | Except.ok o =>
    writersPhase args.path_csv args.json_output args.path_html
      csvResult jsonResult htmlResult
      (fun p => Ev.csv Mode.Functions o.metrics o.files_ignored p
        o.project_coverage args.sort)
      (fun p => Ev.json Mode.Functions o.metrics o.files_ignored p
        args.path_file o.project_coverage args.sort)
      (fun p => Ev.html Mode.Functions o.metrics o.files_ignored p
        args.path_file o.project_coverage args.sort)
      (Ev.console Mode.Functions o.metrics o.files_ignored o.complex_files)
      [ev0]

/-- Embedding of `run_files`, structured identically to
`run_functions` but selecting the file-level entry points and
writers. -/
def run_files {M I C P E : Type} (args : Args)
    (engineResult : Except E (Outcome M I C P))
    (csvResult jsonResult htmlResult : Except E Unit) :
    Except E Unit × List (Ev M I C P) :=
  let ev0 : Ev M I C P :=
    match args.json_format with
    | JsonFormat.Covdir =>
        Ev.engine EntryPoint.get_metrics_concurrent_covdir
          ⟨args.path_file, args.path_json, args.complexity, max args.n_threads 1,
            args.thresholds.vals, args.sort⟩
    | JsonFormat.Coveralls =>
        Ev.engine EntryPoint.get_metrics_concurrent
          ⟨args.path_file, args.path_json, args.complexity, max args.n_threads 1,
            args.thresholds.vals, args.sort⟩
  match engineResult with
  | Except.error e => (Except.error e, [ev0])
  | Except.ok o =>
    writersPhase args.path_csv args.json_output args.path_html
      csvResult jsonResult htmlResult
      (fun p => Ev.csv Mode.Files o.metrics o.files_ignored p
        o.project_coverage args.sort)
      (fun p => Ev.json Mode.Files o.metrics o.files_ignored p
        args.path_file o.project_coverage args.sort)
      (fun p => Ev.html Mode.Files o.metrics o.files_ignored p
        args.path_file o.project_coverage args.sort)
      (Ev.console Mode.Files o.metrics o.files_ignored o.complex_files)
      [ev0]

/-- Embedding of `main` after argument parsing: dispatch on the mode
(the tracing setup performs no observable action in this model). -/
def main {M I C P E : Type} (args : Args)
    (engineResult : Except E (Outcome M I C P))
    (csvResult jsonResult htmlResult : Except E Unit) :
    Except E Unit × List (Ev M I C P) :=
  match args.mode with
  | Mode.Functions => run_functions args engineResult csvResult jsonResult htmlResult
  | Mode.Files => run_files args engineResult csvResult jsonResult htmlResult

/-- Exit status of a Rust `fn main() -> Result<()>`: `Err` exits with a
non-zero status. -/
def processExit {E : Type} (r : Except E Unit) : Nat :=
  match r with
  | Except.ok _ => 0
  | Except.error _ => 1

/-- The CLI phase: `clap` parses the `-t` argument with
`Thresholds::from_str` before `main`'s body runs.  `none` means the
process aborted during argument parsing (a panic inside `from_str`, or
a reported parse error), so no engine call and no output happens. -/
def cliRun {M I C P E : Type} (thresholdArg : String) (mkArgs : Thresholds → Args)
    (engineResult : Except E (Outcome M I C P))
    (csvResult jsonResult htmlResult : Except E Unit) :
    Option (Except E Unit × List (Ev M I C P)) :=
  match Thresholds.fromStr thresholdArg with
  | none => none
  | some (Except.error _) => none
  | some (Except.ok t) =>
      some (main (mkArgs t) engineResult csvResult jsonResult htmlResult)

/-- The default value of the `-t` option in the `clap` attribute. -/
def default_thresholds : String := "35.0,1.5,35.0,30.0"

/-- The default value of the `n_threads` argument
(`default_value_t = 2`). -/
def default_n_threads : Nat := 2

/-- Description of the entry-point choice as a function of the mode and
format selectors alone, following the spec's interface description; the
claims compare the code's dispatch against it. -/
def selectEntry : Mode → JsonFormat → EntryPoint
  | Mode.Files, JsonFormat.Covdir => EntryPoint.get_metrics_concurrent_covdir
  | Mode.Files, JsonFormat.Coveralls => EntryPoint.get_metrics_concurrent
  | Mode.Functions, JsonFormat.Covdir => EntryPoint.get_functions_metrics_concurrent_covdir
  | Mode.Functions, JsonFormat.Coveralls => EntryPoint.get_functions_metrics_concurrent

/-- Description of the argument tuple every entry point receives,
following the spec's interface description. -/
def engineArgsOf (args : Args) : EngineArgs :=
  ⟨args.path_file, args.path_json, args.complexity, max args.n_threads 1,
    args.thresholds.vals, args.sort⟩

/-- The trace a successful run must produce: the engine call, then one
writer call per supplied output path, then the console summary. -/
def expectedTrace {M I C P : Type} (args : Args) (m : Mode) (o : Outcome M I C P) :
    List (Ev M I C P) :=
  Ev.engine (selectEntry m args.json_format) (engineArgsOf args) ::
    ((args.path_csv.map fun p =>
        Ev.csv m o.metrics o.files_ignored p o.project_coverage args.sort).toList ++
      (args.json_output.map fun p =>
        Ev.json m o.metrics o.files_ignored p args.path_file o.project_coverage args.sort).toList ++
      (args.path_html.map fun p =>
        Ev.html m o.metrics o.files_ignored p args.path_file o.project_coverage args.sort).toList ++
      [Ev.console m o.metrics o.files_ignored o.complex_files])

instance {E A : Type} [DecidableEq E] [DecidableEq A] : DecidableEq (Except E A) := fun a b =>
  match a, b with
  | Except.ok x, Except.ok y =>
    if h : x = y then isTrue (by rw [h]) else isFalse (by intro hc; cases hc; exact h rfl)
  | Except.error x, Except.error y =>
    if h : x = y then isTrue (by rw [h]) else isFalse (by intro hc; cases hc; exact h rfl)
  | Except.ok _, Except.error _ => isFalse (by intro hc; cases hc)
  | Except.error _, Except.ok _ => isFalse (by intro hc; cases hc)

/-- Modelled from the spec: `MetricFormulas` (spec section 4.3) lives
in the library crate, not in the embedded binary source.
`wcc_plain = comp * (ploc - covered) / ploc`, the spec's primary form
of the plain weighted-coverage score. -/
def wcc_plain (comp ploc covered : ℚ) : ℚ :=
  comp * (ploc - covered) / ploc

/-- Modelled from the spec: the two-level quantization weight of
section 4.3, mapping raw complexity to a weight in the set of 1 and 2
via a fixed cut-point; the concrete cut-point is left open by the spec
(section 9), so it is a parameter. -/
def q_weight (cut comp : ℚ) : ℚ :=
  if cut < comp then 2 else 1

/-- Modelled from the spec: `wcc_quantized = q(comp) * (1 - cov)` with
`cov = covered / ploc` (section 4.3). -/
def wcc_quantized (cut comp ploc covered : ℚ) : ℚ :=
  q_weight cut comp * (1 - covered / ploc)

/-- Modelled from the spec:
`crap = comp^2 * (1 - cov)^3 + comp` (section 4.3). -/
def crap (comp ploc covered : ℚ) : ℚ :=
  comp ^ 2 * (1 - covered / ploc) ^ 3 + comp

/-- Modelled from the spec: `skunk = comp / 25` when `cov = 0`,
otherwise `(comp / 25) * (1 - cov)` (section 4.3). -/
def skunk (comp ploc covered : ℚ) : ℚ :=
  if covered = 0 then comp / 25 else comp / 25 * (1 - covered / ploc)

/-- A concrete parsed default-threshold value, used as sample input. -/
def sampleThresholds : Thresholds :=
  ⟨[F64.finite 35, F64.finite (3 / 2), F64.finite 35, F64.finite 30]⟩

/-- A concrete argument record used as sample input for witnesses. -/
def sampleArgs : Args :=
  { path_file := "proj"
    path_json := "cov.json"
    path_csv := some "out.csv"
    path_html := some "out.html"
    json_output := none
    complexity := ⟨0⟩
    n_threads := 2
    json_format := JsonFormat.Coveralls
    thresholds := sampleThresholds
    verbose := false
    mode := Mode.Files
    sort := ⟨0⟩ }

/-- Sample argument builder for the CLI phase: the parsed thresholds
slot into `sampleArgs`. -/
def mkSampleArgs (t : Thresholds) : Args :=
  { sampleArgs with thresholds := t }

/-- A concrete engine outcome over `Nat` payloads, used as sample
input for witnesses. -/
def sampleOutcome : Outcome Nat Nat Nat Nat := ⟨1, 2, 3, 4⟩

/-- A trace that contains no engine invocation. -/
def noEngine {M I C P : Type} (t : List (Ev M I C P)) : Prop :=
  ∀ ep ea, Ev.engine ep ea ∉ t

theorem noEngine_nil {M I C P : Type} : noEngine ([] : List (Ev M I C P)) :=
  fun _ _ hmem => by cases hmem

/-- The trace of one optional writer step is the incoming trace plus
the writer invocation exactly when the path was supplied. -/
theorem optWrite_snd_eq {M I C P E : Type} (p : Option String) (r : Except E Unit)
    (mk : String → Ev M I C P) (t : List (Ev M I C P)) :
    (optWrite p r mk t).2 = t ++ (p.map mk).toList := by
  cases p <;> simp [optWrite]

theorem optWrite_keep {M I C P E : Type} (p : Option String) (r : Except E Unit)
    (mk : String → Ev M I C P) (hd : Ev M I C P) (tl : List (Ev M I C P))
    (htl : noEngine tl) (hmk : ∀ q ep ea, mk q ≠ Ev.engine ep ea) :
    ∃ tl2, (optWrite p r mk (hd :: tl)).2 = hd :: tl2 ∧ noEngine tl2 := by
  cases p with
  | none => exact ⟨tl, rfl, htl⟩
  | some q =>
    refine ⟨tl ++ [mk q], by simp [optWrite], ?_⟩
    intro ep ea hmem
    rcases List.mem_append.mp hmem with hm | hm
    · exact htl ep ea hm
    · exact hmk q ep ea (List.mem_singleton.mp hm).symm

/-- Whatever the writers do, the trace of the writer phase keeps its
incoming head and adds no engine invocation. -/
theorem writersPhase_decomp {M I C P E : Type} (pc pj ph : Option String)
    (c j h : Except E Unit) (mkc mkj mkh : String → Ev M I C P)
    (con : Ev M I C P) (hd : Ev M I C P) (tl : List (Ev M I C P))
    (htl : noEngine tl)
    (hc : ∀ q ep ea, mkc q ≠ Ev.engine ep ea)
    (hj : ∀ q ep ea, mkj q ≠ Ev.engine ep ea)
    (hh : ∀ q ep ea, mkh q ≠ Ev.engine ep ea)
    (hcon : ∀ ep ea, con ≠ Ev.engine ep ea) :
    ∃ tl2, (writersPhase pc pj ph c j h mkc mkj mkh con (hd :: tl)).2 = hd :: tl2 ∧
      noEngine tl2 := by
  obtain ⟨tl1, e1, ne1⟩ := optWrite_keep pc c mkc hd tl htl hc
  rcases hw1 : optWrite pc c mkc (hd :: tl) with ⟨r1, t1⟩
  rw [hw1] at e1
  dsimp only at e1
  obtain ⟨tl2, e2, ne2⟩ := optWrite_keep pj j mkj hd tl1 ne1 hj
  rw [← e1] at e2
  rcases hw2 : optWrite pj j mkj t1 with ⟨r2, t2⟩
  rw [hw2] at e2
  dsimp only at e2
  obtain ⟨tl3, e3, ne3⟩ := optWrite_keep ph h mkh hd tl2 ne2 hh
  rw [← e2] at e3
  rcases hw3 : optWrite ph h mkh t2 with ⟨r3, t3⟩
  rw [hw3] at e3
  dsimp only at e3
  unfold writersPhase
  rw [hw1]
  cases r1 with
  | error e => exact ⟨tl1, e1, ne1⟩
  | ok u =>
    dsimp only
    rw [hw2]
    cases r2 with
    | error e => exact ⟨tl2, e2, ne2⟩
    | ok u =>
      dsimp only
      rw [hw3]
      cases r3 with
      | error e => exact ⟨tl3, e3, ne3⟩
      | ok u =>
        refine ⟨tl3 ++ [con], by rw [e3]; rfl, ?_⟩
        intro ep ea hmem
        rcases List.mem_append.mp hmem with hm | hm
        · exact ne3 ep ea hm
        · exact hcon ep ea (List.mem_singleton.mp hm).symm

/-- When the writer phase succeeds, its trace is the incoming trace,
one writer invocation per supplied path in CSV, JSON, HTML order, and
the console summary last. -/
theorem writersPhase_success {M I C P E : Type} (pc pj ph : Option String)
    (c j h : Except E Unit) (mkc mkj mkh : String → Ev M I C P)
    (con : Ev M I C P) (t0 : List (Ev M I C P))
    (hs : (writersPhase pc pj ph c j h mkc mkj mkh con t0).1 = Except.ok ()) :
    (writersPhase pc pj ph c j h mkc mkj mkh con t0).2 =
      t0 ++ ((pc.map mkc).toList ++ (pj.map mkj).toList ++ (ph.map mkh).toList ++ [con]) := by
  have e1 := optWrite_snd_eq pc c mkc t0
  rcases hw1 : optWrite pc c mkc t0 with ⟨r1, t1⟩
  rw [hw1] at e1
  dsimp only at e1
  have e2 := optWrite_snd_eq pj j mkj t1
  rcases hw2 : optWrite pj j mkj t1 with ⟨r2, t2⟩
  rw [hw2] at e2
  dsimp only at e2
  have e3 := optWrite_snd_eq ph h mkh t2
  rcases hw3 : optWrite ph h mkh t2 with ⟨r3, t3⟩
  rw [hw3] at e3
  dsimp only at e3
  unfold writersPhase at hs ⊢
  rw [hw1] at hs ⊢
  cases r1 with
  | error e => simp at hs
  | ok u =>
    dsimp only at hs ⊢
    rw [hw2] at hs ⊢
    cases r2 with
    | error e => simp at hs
    | ok u =>
      dsimp only at hs ⊢
      rw [hw3] at hs ⊢
      cases r3 with
      | error e => simp at hs
      | ok u => simp [e3, e2, e1, List.append_assoc]

/-- The trace of either run function starts with the engine invocation
determined by the mode and format, and no other engine invocation
occurs. -/
theorem run_functions_decomp {M I C P E : Type} (args : Args)
    (er : Except E (Outcome M I C P)) (c j h : Except E Unit) :
    ∃ rest, (run_functions args er c j h).2 =
      Ev.engine (selectEntry Mode.Functions args.json_format) (engineArgsOf args) :: rest ∧
      noEngine rest := by
  cases er with
  | error e =>
    refine ⟨[], ?_, noEngine_nil⟩
    cases hf : args.json_format <;>
      simp [run_functions, hf, selectEntry, engineArgsOf]
  | ok o =>
    obtain ⟨tl2, he, hne⟩ := writersPhase_decomp args.path_csv args.json_output
      args.path_html c j h
      (fun p => Ev.csv Mode.Functions o.metrics o.files_ignored p
        o.project_coverage args.sort)
      (fun p => Ev.json Mode.Functions o.metrics o.files_ignored p
        args.path_file o.project_coverage args.sort)
      (fun p => Ev.html Mode.Functions o.metrics o.files_ignored p
        args.path_file o.project_coverage args.sort)
      (Ev.console Mode.Functions o.metrics o.files_ignored o.complex_files)
      (Ev.engine (selectEntry Mode.Functions args.json_format) (engineArgsOf args))
      [] noEngine_nil
      (fun q ep ea hq => Ev.noConfusion hq) (fun q ep ea hq => Ev.noConfusion hq)
      (fun q ep ea hq => Ev.noConfusion hq) (fun ep ea hq => Ev.noConfusion hq)
    refine ⟨tl2, ?_, hne⟩
    cases hf : args.json_format <;>
      rw [hf] at he <;>
      simpa [run_functions, hf, selectEntry, engineArgsOf] using he

theorem run_files_decomp {M I C P E : Type} (args : Args)
    (er : Except E (Outcome M I C P)) (c j h : Except E Unit) :
    ∃ rest, (run_files args er c j h).2 =
      Ev.engine (selectEntry Mode.Files args.json_format) (engineArgsOf args) :: rest ∧
      noEngine rest := by
  cases er with
  | error e =>
    refine ⟨[], ?_, noEngine_nil⟩
    cases hf : args.json_format <;>
      simp [run_files, hf, selectEntry, engineArgsOf]
  | ok o =>
    obtain ⟨tl2, he, hne⟩ := writersPhase_decomp args.path_csv args.json_output
      args.path_html c j h
      (fun p => Ev.csv Mode.Files o.metrics o.files_ignored p
        o.project_coverage args.sort)
      (fun p => Ev.json Mode.Files o.metrics o.files_ignored p
        args.path_file o.project_coverage args.sort)
      (fun p => Ev.html Mode.Files o.metrics o.files_ignored p
        args.path_file o.project_coverage args.sort)
      (Ev.console Mode.Files o.metrics o.files_ignored o.complex_files)
      (Ev.engine (selectEntry Mode.Files args.json_format) (engineArgsOf args))
      [] noEngine_nil
      (fun q ep ea hq => Ev.noConfusion hq) (fun q ep ea hq => Ev.noConfusion hq)
      (fun q ep ea hq => Ev.noConfusion hq) (fun ep ea hq => Ev.noConfusion hq)
    refine ⟨tl2, ?_, hne⟩
    cases hf : args.json_format <;>
      rw [hf] at he <;>
      simpa [run_files, hf, selectEntry, engineArgsOf] using he

theorem main_decomp {M I C P E : Type} (args : Args)
    (er : Except E (Outcome M I C P)) (c j h : Except E Unit) :
    ∃ rest, (main args er c j h).2 =
      Ev.engine (selectEntry args.mode args.json_format) (engineArgsOf args) :: rest ∧
      noEngine rest := by
  cases hm : args.mode with
  | Files => simpa [main, hm] using run_files_decomp args er c j h
  | Functions => simpa [main, hm] using run_functions_decomp args er c j h

theorem run_functions_success_trace {M I C P E : Type} (args : Args)
    (o : Outcome M I C P) (c j h : Except E Unit)
    (hs : (run_functions args (Except.ok o) c j h).1 = Except.ok ()) :
    (run_functions args (Except.ok o) c j h).2 = expectedTrace args Mode.Functions o := by
  cases hf : args.json_format <;>
    simp only [run_functions, hf] at hs ⊢ <;>
    rw [writersPhase_success _ _ _ _ _ _ _ _ _ _ _ hs] <;>
    simp [expectedTrace, selectEntry, engineArgsOf, hf]

theorem run_files_success_trace {M I C P E : Type} (args : Args)
    (o : Outcome M I C P) (c j h : Except E Unit)
    (hs : (run_files args (Except.ok o) c j h).1 = Except.ok ()) :
    (run_files args (Except.ok o) c j h).2 = expectedTrace args Mode.Files o := by
  cases hf : args.json_format <;>
    simp only [run_files, hf] at hs ⊢ <;>
    rw [writersPhase_success _ _ _ _ _ _ _ _ _ _ _ hs] <;>
    simp [expectedTrace, selectEntry, engineArgsOf, hf]

/-- Claim C1 (counterexample): the claim states that at `cov = 0` the
four scores satisfy `wcc_plain = comp * sloc / ploc`, `crap = comp^2 +
comp`, `skunk = comp / 25` and `wcc_quantized ≤ 2 * sloc / ploc`.  At
the concrete unit `comp = 1`, `sloc = 2`, `ploc = 1`, `covered = 0`
(and quantization cut-point 10) the first equation fails: the spec's
own formula gives `wcc_plain = comp * (ploc - 0) / ploc = 1`, while
`comp * sloc / ploc = 2`. -/
theorem wcc_plain_worst_case_counterexample :
    ¬ (wcc_plain 1 1 0 = 1 * 2 / 1 ∧ crap 1 1 0 = 1 ^ 2 + 1 ∧
       skunk 1 1 0 = 1 / 25 ∧ wcc_quantized 10 1 1 0 ≤ 2 * 2 / 1) := by
  with_unfolding_all decide

/-- Claim C1 (amended): for every complexity `comp ≥ 0` and every unit
with `ploc > 0` coverable lines out of `sloc ≥ ploc` total lines, at
coverage ratio `cov = 0` (no line covered) the four scores satisfy
`wcc_plain = comp` (which equals `comp * sloc / ploc` exactly when
`sloc = ploc`), `crap = comp^2 + comp`, `skunk = comp / 25`, and
`wcc_quantized ≤ 2 * sloc / ploc` for any quantization cut-point. -/
theorem metric_worst_case_cov_zero (cut comp sloc ploc : ℚ)
    (hcomp : 0 ≤ comp) (hploc : 0 < ploc) (hsloc : ploc ≤ sloc) :
    wcc_plain comp ploc 0 = comp ∧
    crap comp ploc 0 = comp ^ 2 + comp ∧
    skunk comp ploc 0 = comp / 25 ∧
    wcc_quantized cut comp ploc 0 ≤ 2 * sloc / ploc := by
  have hne : ploc ≠ 0 := ne_of_gt hploc
  refine ⟨?_, ?_, ?_, ?_⟩
  · rw [wcc_plain, sub_zero, mul_div_assoc, div_self hne, mul_one]
  · rw [crap, zero_div, sub_zero, one_pow, mul_one]
  · rw [skunk, if_pos rfl]
  · rw [wcc_quantized, zero_div, sub_zero, mul_one]
    have h1 : (1 : ℚ) ≤ sloc / ploc := (one_le_div hploc).mpr hsloc
    have h2 : q_weight cut comp ≤ 2 := by
      rw [q_weight]
      split <;> norm_num
    calc q_weight cut comp ≤ 2 := h2
      _ = 2 * 1 := by ring
      _ ≤ 2 * (sloc / ploc) := by linarith
      _ = 2 * sloc / ploc := by rw [mul_div_assoc]

/-- Claim C1 (witness): the amended statement at `cut = 10`,
`comp = 1`, `sloc = 2`, `ploc = 1`. -/
theorem metric_worst_case_cov_zero_witness :
    wcc_plain 1 1 0 = 1 ∧ crap 1 1 0 = 1 ^ 2 + 1 ∧ skunk 1 1 0 = 1 / 25 ∧
    wcc_quantized 10 1 1 0 ≤ 2 * 2 / 1 :=
  metric_worst_case_cov_zero 10 1 2 1 (by norm_num) (by norm_num) (by norm_num)

/-- Claim C2: for every threshold input string with a comma-separated
segment that fails to parse as a float, the `Thresholds` construction
panics inside `clap`'s argument parsing (the `unwrap` in `from_str`),
so the process aborts before `main`'s body runs: no engine call and no
output is attempted, modelled by `cliRun` returning `none`. -/
theorem threshold_parse_failure_aborts_run {M I C P E : Type} (tArg : String)
    (mkArgs : Thresholds → Args) (er : Except E (Outcome M I C P))
    (c j h : Except E Unit) (seg : List Char)
    (hseg : seg ∈ splitOnComma tArg.data)
    (hfail : parseF64Chars (trimWs seg) = none) :
    cliRun tArg mkArgs er c j h = none := by
  unfold cliRun
  have hnone : Thresholds.fromStr tArg = none := by
    unfold Thresholds.fromStr
    rw [mapUnwrap_eq_none_of_mem (fun x => parseF64Chars (trimWs x)) hseg hfail]
    rfl
  rw [hnone]

/-- Claim C2 (witness): the input `a,b` has the unparsable segment
`a`, and the corresponding CLI run aborts with no trace at all. -/
theorem threshold_parse_failure_aborts_run_witness :
    cliRun "a,b" mkSampleArgs (Except.ok sampleOutcome)
      (Except.ok () : Except String Unit) (Except.ok ()) (Except.ok ()) = none :=
  threshold_parse_failure_aborts_run "a,b" mkSampleArgs (Except.ok sampleOutcome)
    (Except.ok ()) (Except.ok ()) (Except.ok ()) ['a'] (by decide)
    (by with_unfolding_all decide)

/-- Claim C3 (counterexample): `Thresholds::from_str` happily
constructs values that violate the claimed invariant: `1,2` yields
only two bounds, `-1,0,0,0` yields a negative bound, and `nan,1,1,1`
yields a non-finite bound. -/
theorem thresholds_unvalidated_counterexample :
    Thresholds.fromStr "1,2" = some (Except.ok ⟨[F64.finite 1, F64.finite 2]⟩) ∧
    Thresholds.fromStr "-1,0,0,0" =
      some (Except.ok ⟨[F64.finite (-1), F64.finite 0, F64.finite 0, F64.finite 0]⟩) ∧
    Thresholds.fromStr "nan,1,1,1" =
      some (Except.ok ⟨[F64.nan, F64.finite 1, F64.finite 1, F64.finite 1]⟩) := by
  refine ⟨?_, ?_, ?_⟩ <;> with_unfolding_all decide

/-- Claim C3 (amended): every `Thresholds` value successfully
constructed from CLI input holds one parsed float per comma-separated
segment of its input, in input order — so it has exactly four entries
only when the input has four segments, and the entries are not
validated for finiteness or non-negativity; the binary never mutates
the value after construction (it is only read). -/
theorem thresholds_one_value_per_segment (s : String) (t : Thresholds)
    (h : Thresholds.fromStr s = some (Except.ok t)) :
    t.vals.length = (splitOnComma s.data).length ∧
      ∀ (i : Nat) (h1 : i < (splitOnComma s.data).length) (h2 : i < t.vals.length),
        parseF64Chars (trimWs ((splitOnComma s.data).get ⟨i, h1⟩)) =
          some (t.vals.get ⟨i, h2⟩) := by
  unfold Thresholds.fromStr at h
  cases hmp : mapUnwrap (fun x => parseF64Chars (trimWs x)) (splitOnComma s.data) with
  | none => rw [hmp] at h; cases h
  | some v =>
    rw [hmp, Option.map_some'] at h
    have ht : Thresholds.mk v = t := by
      have hv := Option.some.inj h
      injection hv
    subst ht
    exact mapUnwrap_eq_some (fun x => parseF64Chars (trimWs x)) (splitOnComma s.data) v hmp

/-- Claim C3 (witness): the amended statement at the input `1,2`. -/
theorem thresholds_one_value_per_segment_witness :
    (Thresholds.mk [F64.finite 1, F64.finite 2]).vals.length =
        (splitOnComma "1,2".data).length ∧
      ∀ (i : Nat) (h1 : i < (splitOnComma "1,2".data).length)
        (h2 : i < (Thresholds.mk [F64.finite 1, F64.finite 2]).vals.length),
        parseF64Chars (trimWs ((splitOnComma "1,2".data).get ⟨i, h1⟩)) =
          some ((Thresholds.mk [F64.finite 1, F64.finite 2]).vals.get ⟨i, h2⟩) :=
  thresholds_one_value_per_segment "1,2" (Thresholds.mk [F64.finite 1, F64.finite 2])
    (by with_unfolding_all decide)

/-- Claim C4: whichever engine entry point a run invokes, the worker
count it receives is `n_threads.max(1)`, i.e. `max 1 n_threads`; in
particular the engine is never invoked with zero workers. -/
theorem engine_worker_count_clamped {M I C P E : Type} (args : Args)
    (er : Except E (Outcome M I C P)) (c j h : Except E Unit)
    (ep : EntryPoint) (ea : EngineArgs)
    (hmem : Ev.engine ep ea ∈ (main args er c j h).2) :
    ea.n_threads = max 1 args.n_threads := by
  obtain ⟨rest, he, hne⟩ := main_decomp args er c j h
  rw [he] at hmem
  rcases List.mem_cons.mp hmem with hm | hm
  · injection hm with h1 h2
    subst h2
    simp [engineArgsOf, Nat.max_comm]
  · exact absurd hm (hne ep ea)

/-- Claim C4 (witness): the engine invocation of a concrete run
carries `max 1 n_threads` workers. -/
theorem engine_worker_count_clamped_witness :
    (engineArgsOf sampleArgs).n_threads = max 1 sampleArgs.n_threads :=
  engine_worker_count_clamped sampleArgs (Except.ok sampleOutcome)
    (Except.ok () : Except String Unit) (Except.ok ()) (Except.ok ())
    (selectEntry sampleArgs.mode sampleArgs.json_format) (engineArgsOf sampleArgs)
    (by with_unfolding_all decide)

/-- Claim C5: when the engine call returns an error, the run returns
exactly that error with a trace containing only the engine invocation
— no CSV, JSON, HTML or console output — and the process exits with a
non-zero status. -/
theorem engine_error_propagates_before_output (M I C P E : Type) (args : Args)
    (e : E) (c j h : Except E Unit) :
    @main M I C P E args (Except.error e) c j h =
      (Except.error e,
        [Ev.engine (selectEntry args.mode args.json_format) (engineArgsOf args)]) ∧
    processExit (Except.error e : Except E Unit) = 1 := by
  refine ⟨?_, rfl⟩
  cases hm : args.mode <;> cases hf : args.json_format <;>
    simp [main, run_files, run_functions, hm, hf, selectEntry, engineArgsOf]

/-- Claim C6: the mode selector and format flag alone determine which
of the four engine entry points the run invokes — Files/Functions
crossed with Covdir/Coveralls per `selectEntry` — and in every case the
engine receives the same argument tuple `engineArgsOf args` (path,
complexity, clamped thread count, thresholds, sort key). -/
theorem entry_point_determined_by_mode_and_format {M I C P E : Type} (args : Args)
    (er : Except E (Outcome M I C P)) (c j h : Except E Unit) :
    ((main args er c j h).2).head? =
      some (Ev.engine (selectEntry args.mode args.json_format) (engineArgsOf args)) := by
  obtain ⟨rest, he, _⟩ := main_decomp args er c j h
  rw [he]
  rfl

/-- Claim C7: the default threshold string parses to exactly the four
bounds 35.0, 1.5, 35.0, 30.0 in the order wcc_plain, wcc_quantized,
crap, skunk. -/
theorem default_thresholds_parse :
    Thresholds.fromStr default_thresholds =
      some (Except.ok
        ⟨[F64.finite 35, F64.finite (3 / 2), F64.finite 35, F64.finite 30]⟩) := by
  with_unfolding_all decide

/-- Claim C8: `Thresholds::from_str` never returns its `Err` branch,
and on any input all of whose comma-separated segments parse as floats
after trimming it returns `Ok` with one float per segment in input
order (any positive number of segments is accepted). -/
theorem from_str_parses_all_segments :
    (∀ (s e : String), Thresholds.fromStr s ≠ some (Except.error e)) ∧
    (∀ s : String,
      (∀ seg ∈ splitOnComma s.data, (parseF64Chars (trimWs seg)).isSome) →
      ∃ t : Thresholds, Thresholds.fromStr s = some (Except.ok t) ∧
        t.vals.length = (splitOnComma s.data).length ∧
        ∀ (i : Nat) (h1 : i < (splitOnComma s.data).length) (h2 : i < t.vals.length),
          parseF64Chars (trimWs ((splitOnComma s.data).get ⟨i, h1⟩)) =
            some (t.vals.get ⟨i, h2⟩)) := by
  constructor
  · intro s e hcontra
    unfold Thresholds.fromStr at hcontra
    cases hmp : mapUnwrap (fun x => parseF64Chars (trimWs x)) (splitOnComma s.data) with
    | none => rw [hmp] at hcontra; cases hcontra
    | some v =>
      rw [hmp, Option.map_some'] at hcontra
      exact Except.noConfusion (Option.some.inj hcontra)
  · intro s hall
    obtain ⟨ys, hys, hlen, hpt⟩ :=
      mapUnwrap_total (fun x => parseF64Chars (trimWs x)) (splitOnComma s.data) hall
    refine ⟨⟨ys⟩, ?_, hlen, hpt⟩
    unfold Thresholds.fromStr
    rw [hys]
    rfl

/-- Claim C8 (witness): the input with whitespace-padded segments
parses into one float per segment, in order. -/
theorem from_str_parses_all_segments_witness :
    ∃ t : Thresholds, Thresholds.fromStr " 1 , 2.5" = some (Except.ok t) ∧
      t.vals.length = (splitOnComma " 1 , 2.5".data).length ∧
      ∀ (i : Nat) (h1 : i < (splitOnComma " 1 , 2.5".data).length)
        (h2 : i < t.vals.length),
        parseF64Chars (trimWs ((splitOnComma " 1 , 2.5".data).get ⟨i, h1⟩)) =
          some (t.vals.get ⟨i, h2⟩) :=
  from_str_parses_all_segments.2 " 1 , 2.5" (by with_unfolding_all decide)

/-- Claim C9: the `clap` default for the worker count is 2, so a run
with the default worker count invokes the engine with exactly
`max 2 1 = 2` workers. -/
theorem default_n_threads_two_workers {M I C P E : Type} (args : Args)
    (er : Except E (Outcome M I C P)) (c j h : Except E Unit)
    (ep : EntryPoint) (ea : EngineArgs)
    (hn : args.n_threads = default_n_threads)
    (hmem : Ev.engine ep ea ∈ (main args er c j h).2) :
    ea.n_threads = 2 := by
  obtain ⟨rest, he, hne⟩ := main_decomp args er c j h
  rw [he] at hmem
  rcases List.mem_cons.mp hmem with hm | hm
  · injection hm with h1 h2
    subst h2
    simp [engineArgsOf, hn, default_n_threads]
  · exact absurd hm (hne ep ea)

/-- Claim C9 (witness): a concrete run with the default worker count
invokes the engine with 2 workers. -/
theorem default_n_threads_two_workers_witness :
    (engineArgsOf sampleArgs).n_threads = 2 :=
  default_n_threads_two_workers sampleArgs (Except.ok sampleOutcome)
    (Except.ok () : Except String Unit) (Except.ok ()) (Except.ok ())
    (selectEntry sampleArgs.mode sampleArgs.json_format) (engineArgsOf sampleArgs)
    rfl (by with_unfolding_all decide)

/-- Claim C10: every successful run produces exactly the trace of the
engine invocation, then one CSV, JSON and HTML writer invocation per
supplied output path — each receiving the run's metrics, ignored list,
project coverage and sort key — and the console summary printer last,
unconditionally. -/
theorem writers_invoked_iff_paths_supplied {M I C P E : Type} (args : Args)
    (o : Outcome M I C P) (c j h : Except E Unit)
    (hs : (main args (Except.ok o) c j h).1 = Except.ok ()) :
    (main args (Except.ok o) c j h).2 = expectedTrace args args.mode o := by
  cases hm : args.mode with
  | Files =>
    simp only [main, hm] at hs ⊢
    exact run_files_success_trace args o c j h hs
  | Functions =>
    simp only [main, hm] at hs ⊢
    exact run_functions_success_trace args o c j h hs

/-- Claim C10 (witness): a concrete successful run with a CSV and an
HTML path but no JSON path produces exactly the expected trace. -/
theorem writers_invoked_iff_paths_supplied_witness :
    (main sampleArgs (Except.ok sampleOutcome) (Except.ok () : Except String Unit)
        (Except.ok ()) (Except.ok ())).2 =
      expectedTrace sampleArgs sampleArgs.mode sampleOutcome :=
  writers_invoked_iff_paths_supplied sampleArgs sampleOutcome
    (Except.ok ()) (Except.ok ()) (Except.ok ()) (by with_unfolding_all decide)

end Wcc
